import Mathlib

/-!
Verification of the makemkvcon robot-mode output parser
(`src/lib/parser.ts`): the field tokenizer `parseRobotValues`, the
per-line record decoder `parseRobotLine`, and the aggregators
`parseDiscInfo` / `parseDiscInfoAdvanced`, together with the accessor
helpers.  JavaScript `Map` objects are modelled as insertion-ordered
association lists (`mapSet` updates in place, appends fresh keys;
`Array.from(map.values())` is `List.map Prod.snd`), JavaScript numbers
appearing here as `parseInt` results are modelled as `Int`, and
`parseInt`/`isNaN` as an `Option Int`-valued function `jsParseInt`
implementing the ECMAScript prefix-parsing behaviour.
-/

/-- Insertion-ordered association-list lookup: first matching key wins
(JS `Map.get`; our maps never hold duplicate keys). -/
def mapGet {α β : Type} [DecidableEq α] : List (α × β) → α → Option β
  | [], _ => none
  | (k0, v0) :: rest, k => if k0 = k then some v0 else mapGet rest k

/-- JS `Map.set`: overwrite the value in place if the key is present,
otherwise append the new entry at the end (preserving insertion order). -/
def mapSet {α β : Type} [DecidableEq α] : List (α × β) → α → β → List (α × β)
  | [], k, v => [(k, v)]
  | (k0, v0) :: rest, k, v =>
    if k0 = k then (k0, v) :: rest else (k0, v0) :: mapSet rest k v

/-- JS `Map.has`. -/
def mapHas {α β : Type} [DecidableEq α] (m : List (α × β)) (k : α) : Bool :=
  (mapGet m k).isSome

/-- The decoded record type (`RobotOutput` union in `src/lib/types.ts`):
one constructor per recognised tag. -/
inductive RobotOutput : Type where
  | MSG (code flags count : Int) (message format : String) (params : List String)
  | PRGC (code id : Int) (name : String)
  | PRGT (code id : Int) (name : String)
  | PRGV (current total max : Int)
  | DRV (index : Int) (visible enabled : Bool) (flags : Int)
      (driveName discName : String)
  | TCOUT (count : Int)
  | CINFO (id code : Int) (value : String)
  | TINFO (id code : Int) (value : String)
  | SINFO (id code : Int) (value : String)
  deriving DecidableEq

/-- Model of `StreamInfo` from `src/lib/types.ts`. -/
structure StreamInfo : Type where
  id : Int
  attributes : List (Int × String)
  deriving DecidableEq

/-- Model of `TitleInfo` from `src/lib/types.ts`. -/
structure TitleInfo : Type where
  id : Int
  attributes : List (Int × String)
  streams : List StreamInfo
  deriving DecidableEq

/-- Model of `DiscInfo` from `src/lib/types.ts`. -/
structure DiscInfo : Type where
  attributes : List (Int × String)
  titles : List TitleInfo
  deriving DecidableEq

/-- The scan loop of `parseRobotValues` (src/lib/parser.ts:25-51) plus the
trailing flush (lines 53-55): arguments are the remaining input, the
in-progress field buffer `current`, the `inQuotes` and `escaped` flags, and
the fields emitted so far. -/
def parseRobotValuesAux : List Char → List Char → Bool → Bool → List String → List String
  | [], current, _, _, values =>
    if current.isEmpty && values.isEmpty then values
    else values ++ [String.mk current]
  | c :: cs, current, inQuotes, escaped, values =>
    if escaped then
      parseRobotValuesAux cs (current ++ [c]) inQuotes false values
    else if c = '\\' then
      parseRobotValuesAux cs current inQuotes true values
    else if c = '"' then
      parseRobotValuesAux cs current (!inQuotes) escaped values
    else if c = ',' ∧ inQuotes = false then
      parseRobotValuesAux cs [] inQuotes escaped (values ++ [String.mk current])
    else
      parseRobotValuesAux cs (current ++ [c]) inQuotes escaped values

/-- Translation of `parseRobotValues` (src/lib/parser.ts:19-58): comma-separated fields
with quote toggling and backslash escapes. -/
def parseRobotValues (input : String) : List String :=
  parseRobotValuesAux input.data [] false false []

/-- The whitespace class used by JS `String.prototype.trim` and by
`parseInt`'s leading-whitespace skip. -/
def isJsSpace (c : Char) : Bool :=
  c == ' ' || c == '\t' || c == '\n' || c == '\r' || c == '\x0b' ||
    c == '\x0c' || c == '\u00a0' || c == '\ufeff'

/-- JS `String.prototype.trim` on the character list. -/
def jsTrimList (cs : List Char) : List Char :=
  ((cs.dropWhile isJsSpace).reverse.dropWhile isJsSpace).reverse

/-- Decimal digit value of a character, if any. -/
def decDigitVal (c : Char) : Option Nat :=
  if '0' ≤ c ∧ c ≤ '9' then some (c.toNat - 48) else none

/-- Hexadecimal digit value of a character, if any. -/
def hexDigitVal (c : Char) : Option Nat :=
  if '0' ≤ c ∧ c ≤ '9' then some (c.toNat - 48)
  else if 'a' ≤ c ∧ c ≤ 'f' then some (c.toNat - 87)
  else if 'A' ≤ c ∧ c ≤ 'F' then some (c.toNat - 55)
  else none

/-- Accumulate the longest run of digits at the head of the list
(ECMAScript `parseInt` reads the longest digit run and ignores the rest). -/
def takeDigitsVal (dv : Char → Option Nat) (base : Nat) : List Char → Nat → Nat
  | [], acc => acc
  | c :: cs, acc =>
    match dv c with
    | some d => takeDigitsVal dv base cs (acc * base + d)
    | none => acc

/-- JS `parseInt(s)` with the radix argument omitted, as used throughout
`parseRobotLine`: skip leading whitespace, read an optional sign, honour a
`0x`/`0X` prefix as hexadecimal, then read the longest digit run; `none`
models `NaN` (no digits at all), so the combination
`const n = parseInt(x); if (isNaN(n)) return null` is `Option` matching. -/
def jsParseInt (s : String) : Option Int :=
  let cs0 := s.data.dropWhile isJsSpace
  let sign : Int := if cs0.head? = some '-' then -1 else 1
  let cs1 := if cs0.head? = some '-' ∨ cs0.head? = some '+' then cs0.tail else cs0
  match cs1 with
  | '0' :: 'x' :: rest =>
    match rest with
    | c :: _ =>
      match hexDigitVal c with
      | some _ => some (sign * (takeDigitsVal hexDigitVal 16 rest 0 : Nat))
      | none => none
    | [] => none
  | '0' :: 'X' :: rest =>
    match rest with
    | c :: _ =>
      match hexDigitVal c with
      | some _ => some (sign * (takeDigitsVal hexDigitVal 16 rest 0 : Nat))
      | none => none
    | [] => none
  | c :: _ =>
    match decDigitVal c with
    | some _ => some (sign * (takeDigitsVal decDigitVal 10 cs1 0 : Nat))
    | none => none
  | [] => none

/-- Model of `trimmed.indexOf(":")` followed by the two `substring` calls
(src/lib/parser.ts:68-72): split at the first colon, `none` when absent. -/
def splitFirstColon : List Char → Option (List Char × List Char)
  | [] => none
  | c :: cs =>
    if c = ':' then some ([], cs)
    else
      match splitFirstColon cs with
      | some (pre, post) => some (c :: pre, post)
      | none => none

/-- JS array indexing `parts[i]` under a prior length guard. -/
def nthField (parts : List String) (i : Nat) : String :=
  (parts.get? i).getD ""

/-- The body of `parseRobotLine` after trimming (src/lib/parser.ts:63-174):
empty-line check, colon split, tag dispatch, per-tag arity and
numeric checks. -/
def parseLineChars (cs : List Char) : Option RobotOutput :=
  if cs.isEmpty then none
  else
    match splitFirstColon cs with
    | none => none
    | some (tpe, restChars) =>
      let rest := String.mk restChars
      match String.mk tpe with
      | "MSG" =>
        let parts := parseRobotValues rest
        if parts.length < 5 then none
        else
          match jsParseInt (nthField parts 0), jsParseInt (nthField parts 1),
              jsParseInt (nthField parts 2) with
          | some code, some flags, some count =>
            some (.MSG code flags count (nthField parts 3) (nthField parts 4)
              (parts.drop 5))
          | _, _, _ => none
      | "PRGC" =>
        let parts := parseRobotValues rest
        if parts.length < 3 then none
        else
          match jsParseInt (nthField parts 0), jsParseInt (nthField parts 1) with
          | some code, some id => some (.PRGC code id (nthField parts 2))
          | _, _ => none
      | "PRGT" =>
        let parts := parseRobotValues rest
        if parts.length < 3 then none
        else
          match jsParseInt (nthField parts 0), jsParseInt (nthField parts 1) with
          | some code, some id => some (.PRGT code id (nthField parts 2))
          | _, _ => none
      | "PRGV" =>
        let parts := parseRobotValues rest
        if parts.length < 3 then none
        else
          match jsParseInt (nthField parts 0), jsParseInt (nthField parts 1),
              jsParseInt (nthField parts 2) with
          | some current, some total, some mx => some (.PRGV current total mx)
          | _, _, _ => none
      | "DRV" =>
        let parts := parseRobotValues rest
        if parts.length < 6 then none
        else
          match jsParseInt (nthField parts 0), jsParseInt (nthField parts 3) with
          | some index, some flags =>
            some (.DRV index (nthField parts 1 == "1") (nthField parts 2 == "1")
              flags (nthField parts 4) (nthField parts 5))
          | _, _ => none
      | "TCOUT" =>
        let parts := parseRobotValues rest
        if parts.length < 1 then none
        else
          match jsParseInt (nthField parts 0) with
          | some count => some (.TCOUT count)
          | none => none
      | "CINFO" =>
        let parts := parseRobotValues rest
        if parts.length < 3 then none
        else
          match jsParseInt (nthField parts 0), jsParseInt (nthField parts 1) with
          | some id, some code => some (.CINFO id code (nthField parts 2))
          | _, _ => none
      | "TINFO" =>
        let parts := parseRobotValues rest
        if parts.length < 3 then none
        else
          match jsParseInt (nthField parts 0), jsParseInt (nthField parts 1) with
          | some id, some code => some (.TINFO id code (nthField parts 2))
          | _, _ => none
      | "SINFO" =>
        let parts := parseRobotValues rest
        if parts.length < 3 then none
        else
          match jsParseInt (nthField parts 0), jsParseInt (nthField parts 1) with
          | some id, some code => some (.SINFO id code (nthField parts 2))
          | _, _ => none
      | _ => none

/-- Translation of `parseRobotLine` (src/lib/parser.ts:63-174): trim, then decode.  `none`
models the `null` rejection signal. -/
def parseRobotLine (line : String) : Option RobotOutput :=
  parseLineChars (jsTrimList line.data)

/-- JS `"...".split("\n")`: always at least one (possibly empty) piece. -/
def splitNewlines : List Char → List (List Char)
  | [] => [[]]
  | c :: cs =>
    if c = '\n' then [] :: splitNewlines cs
    else
      match splitNewlines cs with
      | l :: ls => (c :: l) :: ls
      | [] => [[c]]

/-- Translation of `parseRobotOutput` (src/lib/parser.ts:179-184): split into lines,
decode each, drop the rejected ones. -/
def parseRobotOutput (output : String) : List RobotOutput :=
  (splitNewlines output.data).filterMap (fun l => parseRobotLine (String.mk l))

/-- One iteration of the `parseDiscInfo` loop (src/lib/parser.ts:199-223):
the accumulator is the pair (discAttributes, titlesMap).  `CINFO` writes
`value` under key `id`; `TINFO` lazily creates the title keyed by `id` and
writes `value` under key `code`; the `SINFO` branch is an intentional
no-op in the source. -/
def parseDiscInfoStep (acc : List (Int × String) × List (Int × TitleInfo))
    (item : RobotOutput) : List (Int × String) × List (Int × TitleInfo) :=
  match item with
  | .CINFO id _code value => (mapSet acc.1 id value, acc.2)
  | .TINFO id code value =>
    let tm := if mapHas acc.2 id then acc.2
      else mapSet acc.2 id (⟨id, [], []⟩ : TitleInfo)
    match mapGet tm id with
    | some t =>
      (acc.1, mapSet tm id (⟨t.id, mapSet t.attributes code value, t.streams⟩ : TitleInfo))
    | none => (acc.1, tm)
  | _ => acc

/-- Translation of `parseDiscInfo` (src/lib/parser.ts:195-232). -/
def parseDiscInfo (robotOutput : List RobotOutput) : DiscInfo :=
  let acc := robotOutput.foldl parseDiscInfoStep ([], [])
  ⟨acc.1, acc.2.map Prod.snd⟩

/-- One iteration of the `parseDiscInfoAdvanced` loop
(src/lib/parser.ts:244-270): like `parseDiscInfoStep` except that `CINFO`
keys the disc attribute by `code`, and `SINFO` records are collected into a
separate streams map under the string key `id ++ "-" ++ code`. -/
def parseDiscInfoAdvancedStep
    (acc : (List (Int × String) × List (Int × TitleInfo)) × List (String × StreamInfo))
    (item : RobotOutput) :
    (List (Int × String) × List (Int × TitleInfo)) × List (String × StreamInfo) :=
  match item with
  | .CINFO _id code value => ((mapSet acc.1.1 code value, acc.1.2), acc.2)
  | .TINFO id code value =>
    let tm := if mapHas acc.1.2 id then acc.1.2
      else mapSet acc.1.2 id (⟨id, [], []⟩ : TitleInfo)
    match mapGet tm id with
    | some t =>
      ((acc.1.1, mapSet tm id (⟨t.id, mapSet t.attributes code value, t.streams⟩ : TitleInfo)),
        acc.2)
    | none => ((acc.1.1, tm), acc.2)
  | .SINFO id code value =>
    let key := toString id ++ "-" ++ toString code
    let sm := if mapHas acc.2 key then acc.2
      else mapSet acc.2 key (⟨id, []⟩ : StreamInfo)
    match mapGet sm key with
    | some s => (acc.1, mapSet sm key (⟨s.id, mapSet s.attributes code value⟩ : StreamInfo))
    | none => (acc.1, sm)
  | _ => acc

/-- Translation of `parseDiscInfoAdvanced` (src/lib/parser.ts:238-282); the streams map is
threaded through the loop but, as in the source, not part of the result. -/
def parseDiscInfoAdvanced (robotOutput : List RobotOutput) : DiscInfo :=
  let acc := robotOutput.foldl parseDiscInfoAdvancedStep (([], []), [])
  ⟨acc.1.1, acc.1.2.map Prod.snd⟩

/-- The predicate of the `find` call in `getTitleCount`. -/
def isTCOUT : RobotOutput → Bool
  | .TCOUT _ => true
  | _ => false

/-- Recogniser for stream-scope records. -/
def isSINFO : RobotOutput → Bool
  | .SINFO _ _ _ => true
  | _ => false

/-- Translation of `getTitleCount` (src/lib/parser.ts:319-324): `find` the first `TCOUT`
record and return its count, else `null`. -/
def getTitleCount (robotOutput : List RobotOutput) : Option Int :=
  match robotOutput.find? isTCOUT with
  | some (.TCOUT count) => some count
  | _ => none

/-- Translation of `getMessages` (src/lib/parser.ts:297-303). -/
def getMessages (robotOutput : List RobotOutput) : List String :=
  robotOutput.filterMap fun item =>
    match item with
    | .MSG _ _ _ message _ _ => some message
    | _ => none

/-- The five-line scenario of spec §8.6 (claim C2). -/
def scenarioLines : String :=
  "CINFO:1,0,\"DVD\"\nCINFO:32,0,\"MY_DISC\"\nTINFO:0,2,0,\"Title 1\"\nTINFO:0,16,0,\"00001.m2ts\"\nTINFO:1,2,0,\"Title 2\""

/-- A character that is neither a raw comma, double quote, nor backslash. -/
def plainChar (c : Char) : Bool :=
  decide (c ≠ ',' ∧ c ≠ '"' ∧ c ≠ '\\')

/-- A field with no raw comma, double quote, or backslash. -/
def plainField (f : String) : Bool :=
  f.data.all plainChar

/-- Character list of the comma-join of a field sequence. -/
def joinCommaData : List String → List Char
  | [] => []
  | [f] => f.data
  | f :: fs => f.data ++ ',' :: joinCommaData fs

/-- Joining a field sequence with commas (the re-joining step of the
round-trip property). -/
def joinComma (fs : List String) : String :=
  String.mk (joinCommaData fs)

/-- The head field of a sequence widened by an already-accumulated buffer;
describes the tokenizer's output mid-scan. -/
def headAppend (cur : List Char) : List String → List String
  | [] => []
  | f :: fs => String.mk (cur ++ f.data) :: fs

/-- No two consecutive backslashes anywhere in the character list, i.e. no
escaped backslash. -/
def noDoubleBackslash : List Char → Bool
  | [] => true
  | [_] => true
  | a :: b :: cs => (!(a == '\\') || !(b == '\\')) && noDoubleBackslash (b :: cs)

/-- The value of the last disc-scope Info record with `id = k`, scanning
left to right (last write wins). -/
def lastCInfoValue (rs : List RobotOutput) (k : Int) : Option String :=
  rs.foldl (fun acc r =>
    match r with
    | .CINFO id _ v => if id = k then some v else acc
    | _ => acc) none

/-- The value of the last title-scope Info record with title id `n` and
attribute code `c`, scanning left to right. -/
def lastTInfoValue (rs : List RobotOutput) (n c : Int) : Option String :=
  rs.foldl (fun acc r =>
    match r with
    | .TINFO id code v => if id = n ∧ code = c then some v else acc
    | _ => acc) none

/-- The title ids of the `TINFO` records in first-seen order, given the
set of ids already seen. -/
def tinfoFirstSeen (seen : List Int) : List RobotOutput → List Int
  | [] => []
  | .TINFO id _ _ :: rest =>
    if id ∈ seen then tinfoFirstSeen seen rest
    else id :: tinfoFirstSeen (id :: seen) rest
  | _ :: rest => tinfoFirstSeen seen rest

/-- Attribute `c` of the title keyed `n` in a titles map, if any. -/
def titleAttrAt (m : List (Int × TitleInfo)) (n c : Int) : Option String :=
  match mapGet m n with
  | some t => mapGet t.attributes c
  | none => none

example : parseRobotValues "1,2,3" = ["1", "2", "3"] := by decide
example : parseRobotValues "" = [] := by decide
example : parseRobotValues "\"\"" = [] := by decide
example : parseRobotValues "\\n" = ["n"] := by decide
example : parseRobotValues "\"hello\\\"world\",\"foo\\nbar\"" = ["hello\"world", "foonbar"] := by decide
example : jsParseInt "5x" = some 5 := by decide
example : jsParseInt "x5" = none := by decide
example : jsParseInt " -12" = some (-12) := by decide
example : jsParseInt "0x1f" = some 31 := by decide
example : jsParseInt "" = none := by decide
example : parseRobotLine "TCOUT:5" = some (.TCOUT 5) := by decide
example : parseRobotLine "TCOUT:" = none := by decide
example : parseRobotLine "TCOUT:5x" = some (.TCOUT 5) := by decide
example : parseRobotLine "" = none := by decide
example : parseRobotLine "INVALID" = none := by decide
example : parseRobotLine "CINFO:32,0,\"VOLUME_NAME\"" = some (.CINFO 32 0 "VOLUME_NAME") := by decide
example : parseRobotLine "TINFO:0,16,0,\"00001.m2ts\"" = some (.TINFO 0 16 "0") := by decide
example :
    parseRobotLine "DRV:0,1,1,0,\"DVD+R-DL HL-DT-ST DVDRAM GH24NSC0\",\"DISC_NAME\"" =
      some (.DRV 0 true true 0 "DVD+R-DL HL-DT-ST DVDRAM GH24NSC0" "DISC_NAME") := by decide

/-- C2: evaluating the code at the claimed input.  The disc attribute
collection and the title ids/order come out as the claim says, but both of
title 0's attribute values are `"0"` (the third comma-field, the message
code) instead of the quoted strings `"Title 1"` / `"00001.m2ts"`, because
the `TINFO` decoder takes `parts[2]` as the value even though real
four-field `TINFO` lines carry the value in `parts[3]`. -/
theorem scenario_aggregation_evaluated :
    mapGet (parseDiscInfo (parseRobotOutput scenarioLines)).attributes 1 = some "DVD" ∧
    mapGet (parseDiscInfo (parseRobotOutput scenarioLines)).attributes 32 = some "MY_DISC" ∧
    (parseDiscInfo (parseRobotOutput scenarioLines)).titles.map TitleInfo.id = [0, 1] ∧
    ((parseDiscInfo (parseRobotOutput scenarioLines)).titles.map fun t => mapGet t.attributes 2)
      = [some "0", some "0"] ∧
    ((parseDiscInfo (parseRobotOutput scenarioLines)).titles.map fun t => mapGet t.attributes 16)
      = [some "0", none] := by
  decide

/-- C3, counterexample: `decode "TCOUT:5x"` is not Rejected; it is a
`TitleCount` record whose count `5` was parsed from the numeric prefix of
the malformed field `"5x"`. -/
theorem tcout_malformed_digit_tail_not_rejected :
    parseRobotLine "TCOUT:5x" = some (RobotOutput.TCOUT 5) ∧
    parseRobotLine "TCOUT:5x" ≠ none := by
  exact ⟨rfl, by decide⟩

/-- Characterization of the `MSG` decode branch as a function of
`jsParseInt` on its three integer fields. -/
theorem parseLine_msg_via_parseInt (cs : List Char) :
    parseLineChars ('M' :: 'S' :: 'G' :: ':' :: cs) =
      (match parseRobotValuesAux cs [] false false [] with
       | f0 :: f1 :: f2 :: f3 :: f4 :: rest =>
         (match jsParseInt f0, jsParseInt f1, jsParseInt f2 with
          | some code, some flags, some count =>
            some (RobotOutput.MSG code flags count f3 f4 rest)
          | _, _, _ => none)
       | _ => none) := by
  have hbase : parseLineChars ('M' :: 'S' :: 'G' :: ':' :: cs) =
      (if (parseRobotValuesAux cs [] false false []).length < 5 then none
       else
         match jsParseInt (nthField (parseRobotValuesAux cs [] false false []) 0),
             jsParseInt (nthField (parseRobotValuesAux cs [] false false []) 1),
             jsParseInt (nthField (parseRobotValuesAux cs [] false false []) 2) with
         | some code, some flags, some count =>
           some (RobotOutput.MSG code flags count
             (nthField (parseRobotValuesAux cs [] false false []) 3)
             (nthField (parseRobotValuesAux cs [] false false []) 4)
             ((parseRobotValuesAux cs [] false false []).drop 5))
         | _, _, _ => none) := rfl
  rw [hbase]
  rcases h : parseRobotValuesAux cs [] false false [] with
    _ | ⟨f0, _ | ⟨f1, _ | ⟨f2, _ | ⟨f3, _ | ⟨f4, rest⟩⟩⟩⟩⟩
  · rfl
  · rfl
  · rfl
  · rfl
  · rfl
  · simp only [List.length_cons]
    rw [if_neg (by omega)]
    rfl

/-- Characterization of the `PRGC` decode branch as a function of
`jsParseInt` on its two integer fields. -/
theorem parseLine_prgc_via_parseInt (cs : List Char) :
    parseLineChars ('P' :: 'R' :: 'G' :: 'C' :: ':' :: cs) =
      (match parseRobotValuesAux cs [] false false [] with
       | f0 :: f1 :: f2 :: _ =>
         (match jsParseInt f0, jsParseInt f1 with
          | some code, some id => some (RobotOutput.PRGC code id f2)
          | _, _ => none)
       | _ => none) := by
  have hbase : parseLineChars ('P' :: 'R' :: 'G' :: 'C' :: ':' :: cs) =
      (if (parseRobotValuesAux cs [] false false []).length < 3 then none
       else
         match jsParseInt (nthField (parseRobotValuesAux cs [] false false []) 0),
             jsParseInt (nthField (parseRobotValuesAux cs [] false false []) 1) with
         | some code, some id =>
           some (RobotOutput.PRGC code id
             (nthField (parseRobotValuesAux cs [] false false []) 2))
         | _, _ => none) := rfl
  rw [hbase]
  rcases h : parseRobotValuesAux cs [] false false [] with
    _ | ⟨f0, _ | ⟨f1, _ | ⟨f2, rest⟩⟩⟩
  · rfl
  · rfl
  · rfl
  · simp only [List.length_cons]
    rw [if_neg (by omega)]
    rfl

/-- Characterization of the `PRGT` decode branch as a function of
`jsParseInt` on its two integer fields. -/
theorem parseLine_prgt_via_parseInt (cs : List Char) :
    parseLineChars ('P' :: 'R' :: 'G' :: 'T' :: ':' :: cs) =
      (match parseRobotValuesAux cs [] false false [] with
       | f0 :: f1 :: f2 :: _ =>
         (match jsParseInt f0, jsParseInt f1 with
          | some code, some id => some (RobotOutput.PRGT code id f2)
          | _, _ => none)
       | _ => none) := by
  have hbase : parseLineChars ('P' :: 'R' :: 'G' :: 'T' :: ':' :: cs) =
      (if (parseRobotValuesAux cs [] false false []).length < 3 then none
       else
         match jsParseInt (nthField (parseRobotValuesAux cs [] false false []) 0),
             jsParseInt (nthField (parseRobotValuesAux cs [] false false []) 1) with
         | some code, some id =>
           some (RobotOutput.PRGT code id
             (nthField (parseRobotValuesAux cs [] false false []) 2))
         | _, _ => none) := rfl
  rw [hbase]
  rcases h : parseRobotValuesAux cs [] false false [] with
    _ | ⟨f0, _ | ⟨f1, _ | ⟨f2, rest⟩⟩⟩
  · rfl
  · rfl
  · rfl
  · simp only [List.length_cons]
    rw [if_neg (by omega)]
    rfl

/-- Characterization of the `PRGV` decode branch as a function of
`jsParseInt` on its three integer fields. -/
theorem parseLine_prgv_via_parseInt (cs : List Char) :
    parseLineChars ('P' :: 'R' :: 'G' :: 'V' :: ':' :: cs) =
      (match parseRobotValuesAux cs [] false false [] with
       | f0 :: f1 :: f2 :: _ =>
         (match jsParseInt f0, jsParseInt f1, jsParseInt f2 with
          | some current, some total, some mx => some (RobotOutput.PRGV current total mx)
          | _, _, _ => none)
       | _ => none) := by
  have hbase : parseLineChars ('P' :: 'R' :: 'G' :: 'V' :: ':' :: cs) =
      (if (parseRobotValuesAux cs [] false false []).length < 3 then none
       else
         match jsParseInt (nthField (parseRobotValuesAux cs [] false false []) 0),
             jsParseInt (nthField (parseRobotValuesAux cs [] false false []) 1),
             jsParseInt (nthField (parseRobotValuesAux cs [] false false []) 2) with
         | some current, some total, some mx => some (RobotOutput.PRGV current total mx)
         | _, _, _ => none) := rfl
  rw [hbase]
  rcases h : parseRobotValuesAux cs [] false false [] with
    _ | ⟨f0, _ | ⟨f1, _ | ⟨f2, rest⟩⟩⟩
  · rfl
  · rfl
  · rfl
  · simp only [List.length_cons]
    rw [if_neg (by omega)]
    rfl

/-- Characterization of the `DRV` decode branch as a function of
`jsParseInt` on its two integer fields (positions 0 and 3). -/
theorem parseLine_drv_via_parseInt (cs : List Char) :
    parseLineChars ('D' :: 'R' :: 'V' :: ':' :: cs) =
      (match parseRobotValuesAux cs [] false false [] with
       | f0 :: f1 :: f2 :: f3 :: f4 :: f5 :: _ =>
         (match jsParseInt f0, jsParseInt f3 with
          | some index, some flags =>
            some (RobotOutput.DRV index (f1 == "1") (f2 == "1") flags f4 f5)
          | _, _ => none)
       | _ => none) := by
  have hbase : parseLineChars ('D' :: 'R' :: 'V' :: ':' :: cs) =
      (if (parseRobotValuesAux cs [] false false []).length < 6 then none
       else
         match jsParseInt (nthField (parseRobotValuesAux cs [] false false []) 0),
             jsParseInt (nthField (parseRobotValuesAux cs [] false false []) 3) with
         | some index, some flags =>
           some (RobotOutput.DRV index
             (nthField (parseRobotValuesAux cs [] false false []) 1 == "1")
             (nthField (parseRobotValuesAux cs [] false false []) 2 == "1")
             flags
             (nthField (parseRobotValuesAux cs [] false false []) 4)
             (nthField (parseRobotValuesAux cs [] false false []) 5))
         | _, _ => none) := rfl
  rw [hbase]
  rcases h : parseRobotValuesAux cs [] false false [] with
    _ | ⟨f0, _ | ⟨f1, _ | ⟨f2, _ | ⟨f3, _ | ⟨f4, _ | ⟨f5, rest⟩⟩⟩⟩⟩⟩
  · rfl
  · rfl
  · rfl
  · rfl
  · rfl
  · rfl
  · simp only [List.length_cons]
    rw [if_neg (by omega)]
    rfl

/-- Characterization of the `TCOUT` decode branch as a function of
`jsParseInt` on its single integer field. -/
theorem parseLine_tcout_via_parseInt (cs : List Char) :
    parseLineChars ('T' :: 'C' :: 'O' :: 'U' :: 'T' :: ':' :: cs) =
      (match parseRobotValuesAux cs [] false false [] with
       | [] => none
       | f :: _ => Option.map RobotOutput.TCOUT (jsParseInt f)) := by
  have hbase : parseLineChars ('T' :: 'C' :: 'O' :: 'U' :: 'T' :: ':' :: cs) =
      (if (parseRobotValuesAux cs [] false false []).length < 1 then none
       else
         match jsParseInt (nthField (parseRobotValuesAux cs [] false false []) 0) with
         | some count => some (RobotOutput.TCOUT count)
         | none => none) := rfl
  rw [hbase]
  cases h : parseRobotValuesAux cs [] false false [] with
  | nil => simp
  | cons f rest =>
    simp only [List.length_cons, nthField, List.get?, Option.getD_some]
    have hlen : ¬ (rest.length + 1 < 1) := by omega
    rw [if_neg hlen]
    cases jsParseInt f <;> rfl

/-- Characterization of the `CINFO` decode branch as a function of
`jsParseInt` on its two integer fields. -/
theorem parseLine_cinfo_via_parseInt (cs : List Char) :
    parseLineChars ('C' :: 'I' :: 'N' :: 'F' :: 'O' :: ':' :: cs) =
      (match parseRobotValuesAux cs [] false false [] with
       | f0 :: f1 :: f2 :: _ =>
         (match jsParseInt f0, jsParseInt f1 with
          | some id, some code => some (RobotOutput.CINFO id code f2)
          | _, _ => none)
       | _ => none) := by
  have hbase : parseLineChars ('C' :: 'I' :: 'N' :: 'F' :: 'O' :: ':' :: cs) =
      (if (parseRobotValuesAux cs [] false false []).length < 3 then none
       else
         match jsParseInt (nthField (parseRobotValuesAux cs [] false false []) 0),
             jsParseInt (nthField (parseRobotValuesAux cs [] false false []) 1) with
         | some id, some code =>
           some (RobotOutput.CINFO id code
             (nthField (parseRobotValuesAux cs [] false false []) 2))
         | _, _ => none) := rfl
  rw [hbase]
  rcases h : parseRobotValuesAux cs [] false false [] with
    _ | ⟨f0, _ | ⟨f1, _ | ⟨f2, rest⟩⟩⟩
  · rfl
  · rfl
  · rfl
  · simp only [List.length_cons]
    rw [if_neg (by omega)]
    rfl

/-- Characterization of the `TINFO` decode branch as a function of
`jsParseInt` on its two integer fields. -/
theorem parseLine_tinfo_via_parseInt (cs : List Char) :
    parseLineChars ('T' :: 'I' :: 'N' :: 'F' :: 'O' :: ':' :: cs) =
      (match parseRobotValuesAux cs [] false false [] with
       | f0 :: f1 :: f2 :: _ =>
         (match jsParseInt f0, jsParseInt f1 with
          | some id, some code => some (RobotOutput.TINFO id code f2)
          | _, _ => none)
       | _ => none) := by
  have hbase : parseLineChars ('T' :: 'I' :: 'N' :: 'F' :: 'O' :: ':' :: cs) =
      (if (parseRobotValuesAux cs [] false false []).length < 3 then none
       else
         match jsParseInt (nthField (parseRobotValuesAux cs [] false false []) 0),
             jsParseInt (nthField (parseRobotValuesAux cs [] false false []) 1) with
         | some id, some code =>
           some (RobotOutput.TINFO id code
             (nthField (parseRobotValuesAux cs [] false false []) 2))
         | _, _ => none) := rfl
  rw [hbase]
  rcases h : parseRobotValuesAux cs [] false false [] with
    _ | ⟨f0, _ | ⟨f1, _ | ⟨f2, rest⟩⟩⟩
  · rfl
  · rfl
  · rfl
  · simp only [List.length_cons]
    rw [if_neg (by omega)]
    rfl

/-- Characterization of the `SINFO` decode branch as a function of
`jsParseInt` on its two integer fields. -/
theorem parseLine_sinfo_via_parseInt (cs : List Char) :
    parseLineChars ('S' :: 'I' :: 'N' :: 'F' :: 'O' :: ':' :: cs) =
      (match parseRobotValuesAux cs [] false false [] with
       | f0 :: f1 :: f2 :: _ =>
         (match jsParseInt f0, jsParseInt f1 with
          | some id, some code => some (RobotOutput.SINFO id code f2)
          | _, _ => none)
       | _ => none) := by
  have hbase : parseLineChars ('S' :: 'I' :: 'N' :: 'F' :: 'O' :: ':' :: cs) =
      (if (parseRobotValuesAux cs [] false false []).length < 3 then none
       else
         match jsParseInt (nthField (parseRobotValuesAux cs [] false false []) 0),
             jsParseInt (nthField (parseRobotValuesAux cs [] false false []) 1) with
         | some id, some code =>
           some (RobotOutput.SINFO id code
             (nthField (parseRobotValuesAux cs [] false false []) 2))
         | _, _ => none) := rfl
  rw [hbase]
  rcases h : parseRobotValuesAux cs [] false false [] with
    _ | ⟨f0, _ | ⟨f1, _ | ⟨f2, rest⟩⟩⟩
  · rfl
  · rfl
  · rfl
  · simp only [List.length_cons]
    rw [if_neg (by omega)]
    rfl

/-- C3, amended: for every recognized tag, integer fields follow JS
`parseInt` semantics.  Each tag's decode branch is characterized, for every
payload, as a function of `jsParseInt` on its integer-position fields:
given the tag's minimum field count, decode returns Rejected exactly when
some integer-position field has no parseable integer (no digits after the
optional whitespace, sign and `0x` handling), and otherwise the record is
built from the numeric prefixes of those fields, so a field with a digit
run followed by garbage is accepted — e.g. `decode "TCOUT:5x"` is
`TitleCount 5`, not Rejected. -/
theorem decode_int_fields_via_parseInt :
    (∀ cs : List Char, parseLineChars ('M' :: 'S' :: 'G' :: ':' :: cs) =
      (match parseRobotValuesAux cs [] false false [] with
       | f0 :: f1 :: f2 :: f3 :: f4 :: rest =>
         (match jsParseInt f0, jsParseInt f1, jsParseInt f2 with
          | some code, some flags, some count =>
            some (RobotOutput.MSG code flags count f3 f4 rest)
          | _, _, _ => none)
       | _ => none)) ∧
    (∀ cs : List Char, parseLineChars ('P' :: 'R' :: 'G' :: 'C' :: ':' :: cs) =
      (match parseRobotValuesAux cs [] false false [] with
       | f0 :: f1 :: f2 :: _ =>
         (match jsParseInt f0, jsParseInt f1 with
          | some code, some id => some (RobotOutput.PRGC code id f2)
          | _, _ => none)
       | _ => none)) ∧
    (∀ cs : List Char, parseLineChars ('P' :: 'R' :: 'G' :: 'T' :: ':' :: cs) =
      (match parseRobotValuesAux cs [] false false [] with
       | f0 :: f1 :: f2 :: _ =>
         (match jsParseInt f0, jsParseInt f1 with
          | some code, some id => some (RobotOutput.PRGT code id f2)
          | _, _ => none)
       | _ => none)) ∧
    (∀ cs : List Char, parseLineChars ('P' :: 'R' :: 'G' :: 'V' :: ':' :: cs) =
      (match parseRobotValuesAux cs [] false false [] with
       | f0 :: f1 :: f2 :: _ =>
         (match jsParseInt f0, jsParseInt f1, jsParseInt f2 with
          | some current, some total, some mx => some (RobotOutput.PRGV current total mx)
          | _, _, _ => none)
       | _ => none)) ∧
    (∀ cs : List Char, parseLineChars ('D' :: 'R' :: 'V' :: ':' :: cs) =
      (match parseRobotValuesAux cs [] false false [] with
       | f0 :: f1 :: f2 :: f3 :: f4 :: f5 :: _ =>
         (match jsParseInt f0, jsParseInt f3 with
          | some index, some flags =>
            some (RobotOutput.DRV index (f1 == "1") (f2 == "1") flags f4 f5)
          | _, _ => none)
       | _ => none)) ∧
    (∀ cs : List Char, parseLineChars ('T' :: 'C' :: 'O' :: 'U' :: 'T' :: ':' :: cs) =
      (match parseRobotValuesAux cs [] false false [] with
       | [] => none
       | f :: _ => Option.map RobotOutput.TCOUT (jsParseInt f))) ∧
    (∀ cs : List Char, parseLineChars ('C' :: 'I' :: 'N' :: 'F' :: 'O' :: ':' :: cs) =
      (match parseRobotValuesAux cs [] false false [] with
       | f0 :: f1 :: f2 :: _ =>
         (match jsParseInt f0, jsParseInt f1 with
          | some id, some code => some (RobotOutput.CINFO id code f2)
          | _, _ => none)
       | _ => none)) ∧
    (∀ cs : List Char, parseLineChars ('T' :: 'I' :: 'N' :: 'F' :: 'O' :: ':' :: cs) =
      (match parseRobotValuesAux cs [] false false [] with
       | f0 :: f1 :: f2 :: _ =>
         (match jsParseInt f0, jsParseInt f1 with
          | some id, some code => some (RobotOutput.TINFO id code f2)
          | _, _ => none)
       | _ => none)) ∧
    (∀ cs : List Char, parseLineChars ('S' :: 'I' :: 'N' :: 'F' :: 'O' :: ':' :: cs) =
      (match parseRobotValuesAux cs [] false false [] with
       | f0 :: f1 :: f2 :: _ =>
         (match jsParseInt f0, jsParseInt f1 with
          | some id, some code => some (RobotOutput.SINFO id code f2)
          | _, _ => none)
       | _ => none)) ∧
    parseRobotLine "TCOUT:5x" = some (RobotOutput.TCOUT 5) ∧
    jsParseInt "5x" = some 5 ∧ jsParseInt "x5" = none :=
  ⟨parseLine_msg_via_parseInt, parseLine_prgc_via_parseInt,
   parseLine_prgt_via_parseInt, parseLine_prgv_via_parseInt,
   parseLine_drv_via_parseInt, parseLine_tcout_via_parseInt,
   parseLine_cinfo_via_parseInt, parseLine_tinfo_via_parseInt,
   parseLine_sinfo_via_parseInt, rfl, rfl, rfl⟩

/-- C4, counterexample: tokenizing the two-character payload consisting of
two double quotes yields zero fields, not one empty field — both quotes
merely toggle the quote flag, so at end of input the buffer is empty and no
field has been emitted, and the trailing-append rule does not fire. -/
theorem tokenize_empty_quoted_string_yields_no_field :
    parseRobotValues "\"\"" = [] ∧ parseRobotValues "\"\"" ≠ [""] := by
  decide

/-- C4, amended: the empty payload tokenizes to zero fields, and a payload
consisting of a single empty quoted string also tokenizes to zero fields
(the trailing append fires only when the buffer is non-empty or a comma has
already produced a field); an empty quoted field does survive when a comma
precedes it, as in `a,""`. -/
theorem tokenize_empty_and_empty_quoted :
    parseRobotValues "" = [] ∧ parseRobotValues "\"\"" = [] ∧
    parseRobotValues "a,\"\"" = ["a", ""] := by
  decide

/-- C6: decoding is total — every input string yields either a rejection
signal (`none`) or some typed record, and in particular empty lines,
lines without a colon, unknown tags, and numeric-parse failures all come
out as rejections rather than failures. -/
theorem parseRobotLine_total :
    (∀ s : String, parseRobotLine s = none ∨ ∃ r, parseRobotLine s = some r) ∧
    parseRobotLine "" = none ∧
    parseRobotLine "   " = none ∧
    parseRobotLine "no delimiter here" = none ∧
    parseRobotLine "FOO:1,2,3" = none ∧
    parseRobotLine "TCOUT:x" = none ∧
    parseRobotLine "MSG:1,2" = none := by
  refine ⟨fun s => ?_, rfl, rfl, rfl, rfl, rfl, rfl⟩
  cases h : parseRobotLine s with
  | none => exact Or.inl rfl
  | some r => exact Or.inr ⟨r, rfl⟩

/-- The step function `parseDiscInfoStep` ignores stream-scope records, so folding it over a
sequence equals folding it over the sequence with all `SINFO` records
removed, from any starting accumulator. -/
theorem foldl_discStep_filter_sinfo (rs : List RobotOutput) :
    ∀ st, rs.foldl parseDiscInfoStep st =
      (rs.filter fun r => !(isSINFO r)).foldl parseDiscInfoStep st := by
  induction rs with
  | nil => intro st; rfl
  | cons r rs ih =>
    intro st
    cases r <;> simp [List.filter, isSINFO, List.foldl, ih, parseDiscInfoStep]

/-- C9: the aggregator never fails on stream-scope records and never lets
them disturb the rest — `parseDiscInfo` returns the same disc attribute
collection and the same titles (attributes and order included) as it does
on the same sequence with every `SINFO` record removed. -/
theorem parseDiscInfo_ignores_sinfo (rs : List RobotOutput) :
    parseDiscInfo rs = parseDiscInfo (rs.filter fun r => !(isSINFO r)) := by
  unfold parseDiscInfo
  rw [foldl_discStep_filter_sinfo]

/-- C10: the two aggregator variants key disc attributes differently — on
the single disc-scope record `CINFO 1 2 "v"` (id 1, code 2),
`parseDiscInfo` stores the value under key 1 while `parseDiscInfoAdvanced`
stores it under key 2, so their disc attribute collections differ. -/
theorem parseDiscInfo_advanced_disc_key_differs :
    mapGet (parseDiscInfo [RobotOutput.CINFO 1 2 "v"]).attributes 1 = some "v" ∧
    mapGet (parseDiscInfo [RobotOutput.CINFO 1 2 "v"]).attributes 2 = none ∧
    mapGet (parseDiscInfoAdvanced [RobotOutput.CINFO 1 2 "v"]).attributes 1 = none ∧
    mapGet (parseDiscInfoAdvanced [RobotOutput.CINFO 1 2 "v"]).attributes 2 = some "v" ∧
    (parseDiscInfo [RobotOutput.CINFO 1 2 "v"]).attributes ≠
      (parseDiscInfoAdvanced [RobotOutput.CINFO 1 2 "v"]).attributes := by
  decide

/-- C8, counterexample: with two `TCOUT` records the accessor returns the
first one's count, not the last one's. -/
theorem getTitleCount_two_tcouts_returns_first :
    getTitleCount [RobotOutput.TCOUT 1, RobotOutput.TCOUT 2] = some 1 ∧
    getTitleCount [RobotOutput.TCOUT 1, RobotOutput.TCOUT 2] ≠ some 2 := by
  decide

/-- C8, amended: `getTitleCount` returns the count of the *first*
title-count record in the sequence (hence of the only one when exactly one
is present), and the no-value signal when there is none. -/
theorem getTitleCount_first_tcout :
    (∀ pre post n, (∀ r ∈ pre, isTCOUT r = false) →
      getTitleCount (pre ++ RobotOutput.TCOUT n :: post) = some n) ∧
    (∀ rs : List RobotOutput, (∀ r ∈ rs, isTCOUT r = false) →
      getTitleCount rs = none) := by
  constructor
  · intro pre post n h
    induction pre with
    | nil => rfl
    | cons r pre ih =>
      have hr : isTCOUT r = false := h r (by simp)
      have h' : ∀ x ∈ pre, isTCOUT x = false := fun x hx => h x (by simp [hx])
      simp only [List.cons_append, getTitleCount, List.find?, hr]
      exact ih h'
  · intro rs h
    induction rs with
    | nil => rfl
    | cons r rs ih =>
      have hr : isTCOUT r = false := h r (by simp)
      have h' : ∀ x ∈ rs, isTCOUT x = false := fun x hx => h x (by simp [hx])
      simp only [getTitleCount, List.find?, hr]
      exact ih h'

/-- Witness for C8's amended theorem at a concrete sequence. -/
theorem getTitleCount_first_tcout_witness :
    getTitleCount [RobotOutput.MSG 1 0 0 "a" "b" [], RobotOutput.TCOUT 7] = some 7 :=
  getTitleCount_first_tcout.1 [RobotOutput.MSG 1 0 0 "a" "b" []] [] 7 (by decide)

theorem stringMk_data (s : String) : String.mk s.data = s := rfl

/-- Scanning a run of plain characters just moves them into the buffer. -/
theorem parseRobotValuesAux_plain (cs : List Char)
    (hcs : ∀ c ∈ cs, plainChar c = true) :
    ∀ rest cur vals, parseRobotValuesAux (cs ++ rest) cur false false vals =
      parseRobotValuesAux rest (cur ++ cs) false false vals := by
  induction cs with
  | nil => intro rest cur vals; simp
  | cons c cs ih =>
    intro rest cur vals
    obtain ⟨h1, h2, h3⟩ := of_decide_eq_true (hcs c (by simp))
    have hstep : parseRobotValuesAux ((c :: cs) ++ rest) cur false false vals =
        parseRobotValuesAux (cs ++ rest) (cur ++ [c]) false false vals := by
      show parseRobotValuesAux (c :: (cs ++ rest)) cur false false vals = _
      simp only [parseRobotValuesAux]
      rw [if_neg (by simp), if_neg h3, if_neg h2, if_neg (by simp [h1])]
    rw [hstep, ih (fun x hx => hcs x (by simp [hx])) rest (cur ++ [c]) vals,
      List.append_assoc, List.singleton_append]

/-- Tokenizing the comma-join of plain fields mid-scan: the first field
absorbs the buffer, the rest come out verbatim. -/
theorem parseRobotValuesAux_join (fs : List String) :
    ∀ cur vals, (∀ f ∈ fs, plainField f = true) →
    (vals = [] → cur = [] → fs ≠ [""]) → fs ≠ [] →
    parseRobotValuesAux (joinCommaData fs) cur false false vals =
      vals ++ headAppend cur fs := by
  induction fs with
  | nil => intro cur vals _ _ h; exact absurd rfl h
  | cons f fs ih =>
    intro cur vals hplain hside _
    have hf : ∀ c ∈ f.data, plainChar c = true := by
      have hp := hplain f (by simp)
      simpa [plainField, List.all_eq_true] using hp
    cases fs with
    | nil =>
      show parseRobotValuesAux f.data cur false false vals =
        vals ++ [String.mk (cur ++ f.data)]
      have hplainrun := parseRobotValuesAux_plain f.data hf [] cur vals
      rw [List.append_nil] at hplainrun
      rw [hplainrun]
      show (if (cur ++ f.data).isEmpty && vals.isEmpty then vals
        else vals ++ [String.mk (cur ++ f.data)]) =
        vals ++ [String.mk (cur ++ f.data)]
      rcases vals with _ | ⟨v, vs⟩
      · by_cases hemp : (cur ++ f.data).isEmpty = true
        · exfalso
          have hcd : cur ++ f.data = [] := List.isEmpty_iff.mp hemp
          have hcur : cur = [] := by
            cases cur with
            | nil => rfl
            | cons a as => simp at hcd
          have hfd : f.data = [] := by
            rw [hcur] at hcd
            simpa using hcd
          have hfe : f = "" := by rw [← stringMk_data f, hfd]
          exact (hside rfl hcur) (by rw [hfe])
        · simp [hemp]
      · simp
    | cons g fs' =>
      show parseRobotValuesAux (f.data ++ ',' :: joinCommaData (g :: fs'))
          cur false false vals =
        vals ++ (String.mk (cur ++ f.data) :: g :: fs')
      rw [parseRobotValuesAux_plain f.data hf _ cur vals]
      have hstep : parseRobotValuesAux (',' :: joinCommaData (g :: fs'))
          (cur ++ f.data) false false vals =
          parseRobotValuesAux (joinCommaData (g :: fs')) [] false false
            (vals ++ [String.mk (cur ++ f.data)]) := rfl
      rw [hstep]
      rw [ih [] (vals ++ [String.mk (cur ++ f.data)])
        (fun x hx => hplain x (by simp [hx])) (by simp) (by simp)]
      simp [headAppend, stringMk_data]

/-- C7, counterexample: the singleton sequence holding one empty string —
which contains no raw comma, quote, or backslash — joins to the empty
payload, which tokenizes back to zero fields, not to the original
singleton. -/
theorem roundtrip_fails_on_singleton_empty :
    plainField "" = true ∧
    parseRobotValues (joinComma [""]) = [] ∧
    parseRobotValues (joinComma [""]) ≠ [""] := by
  decide

/-- C7, amended: for every field sequence containing no raw comma, quote,
or backslash, except the singleton sequence of the empty string (whose join
is the empty payload and tokenizes to zero fields), joining with commas and
tokenizing reproduces the sequence. -/
theorem tokenize_joinComma_roundtrip (fs : List String)
    (hplain : ∀ f ∈ fs, plainField f = true) (hne : fs ≠ [""]) :
    parseRobotValues (joinComma fs) = fs := by
  cases fs with
  | nil => rfl
  | cons f fs' =>
    show parseRobotValuesAux (joinCommaData (f :: fs')) [] false false [] = f :: fs'
    rw [parseRobotValuesAux_join (f :: fs') [] [] hplain (fun _ _ => hne) (by simp)]
    simp [headAppend, stringMk_data]

/-- Witness for C7's amended round-trip theorem at a concrete sequence. -/
theorem tokenize_joinComma_roundtrip_witness :
    parseRobotValues (joinComma ["a", "", "c d"]) = ["a", "", "c d"] :=
  tokenize_joinComma_roundtrip ["a", "", "c d"] (by decide) (by decide)

theorem noDoubleBackslash_tail (a : Char) (l : List Char)
    (h : noDoubleBackslash (a :: l) = true) : noDoubleBackslash l = true := by
  cases l with
  | nil => rfl
  | cons b l =>
    simp only [noDoubleBackslash, Bool.and_eq_true] at h
    exact h.2

/-- If the input has no consecutive backslashes (and, when an escape is
already pending, the next character is not a backslash), then no output
field of the scan loop contains a backslash. -/
theorem parseRobotValuesAux_no_backslash :
    ∀ (cs cur : List Char) (q esc : Bool) (vals : List String),
      noDoubleBackslash cs = true →
      (esc = true → cs.head? ≠ some '\\') →
      '\\' ∉ cur →
      (∀ f ∈ vals, '\\' ∉ f.data) →
      ∀ f ∈ parseRobotValuesAux cs cur q esc vals, '\\' ∉ f.data := by
  intro cs
  induction cs with
  | nil =>
    intro cur q esc vals _ _ h3 h4 f hf
    simp only [parseRobotValuesAux] at hf
    split at hf
    · exact h4 f hf
    · rcases List.mem_append.mp hf with h | h
      · exact h4 f h
      · have hfc : f = String.mk cur := by simpa using h
        rw [hfc]
        exact h3
  | cons c cs ih =>
    intro cur q esc vals h1 h2 h3 h4 f hf
    cases esc with
    | true =>
      have hc : c ≠ '\\' := by
        intro hh
        exact h2 rfl (by simp [hh])
      rw [show parseRobotValuesAux (c :: cs) cur q true vals =
          parseRobotValuesAux cs (cur ++ [c]) q false vals from rfl] at hf
      refine ih (cur ++ [c]) q false vals (noDoubleBackslash_tail _ _ h1)
        (fun h => absurd h (by simp)) (fun hmem => ?_) h4 f hf
      rcases List.mem_append.mp hmem with h | h
      · exact h3 h
      · simp at h
        exact hc h.symm
    | false =>
      by_cases hbs : c = '\\'
      · subst hbs
        have hhead : cs.head? ≠ some '\\' := by
          cases cs with
          | nil => simp
          | cons d ds =>
            simp only [List.head?]
            intro hd
            have hd' : d = '\\' := by
              injection hd
            rw [hd'] at h1
            simp [noDoubleBackslash] at h1
        rw [show parseRobotValuesAux ('\\' :: cs) cur q false vals =
            parseRobotValuesAux cs cur q true vals from rfl] at hf
        exact ih cur q true vals (noDoubleBackslash_tail _ _ h1)
          (fun _ => hhead) h3 h4 f hf
      · by_cases hq : c = '"'
        · subst hq
          rw [show parseRobotValuesAux ('"' :: cs) cur q false vals =
              parseRobotValuesAux cs cur (!q) false vals from rfl] at hf
          exact ih cur (!q) false vals (noDoubleBackslash_tail _ _ h1)
            (fun h => absurd h (by simp)) h3 h4 f hf
        · by_cases hcm : c = ',' ∧ q = false
          · obtain ⟨hc1, hc2⟩ := hcm
            subst hc1
            subst hc2
            rw [show parseRobotValuesAux (',' :: cs) cur false false vals =
                parseRobotValuesAux cs [] false false (vals ++ [String.mk cur]) from rfl] at hf
            refine ih [] false false (vals ++ [String.mk cur])
              (noDoubleBackslash_tail _ _ h1) (fun h => absurd h (by simp))
              (by simp) (fun g hg => ?_) f hf
            rcases List.mem_append.mp hg with h | h
            · exact h4 g h
            · have hgc : g = String.mk cur := by simpa using h
              rw [hgc]
              exact h3
          · have hstep : parseRobotValuesAux (c :: cs) cur q false vals =
                parseRobotValuesAux cs (cur ++ [c]) q false vals := by
              simp only [parseRobotValuesAux]
              rw [if_neg (by simp), if_neg hbs, if_neg hq, if_neg hcm]
            rw [hstep] at hf
            refine ih (cur ++ [c]) q false vals (noDoubleBackslash_tail _ _ h1)
              (fun h => absurd h (by simp)) (fun hmem => ?_) h4 f hf
            rcases List.mem_append.mp hmem with h | h
            · exact h3 h
            · simp at h
              exact hbs h.symm

/-- C5: a backslash met outside a pending escape emits nothing itself and
the next character is appended verbatim (one scan step); hence the
two-character payload backslash-n tokenizes to the single letter `n`, and
an input without consecutive backslashes — i.e. without escaped
backslashes — yields fields containing no backslash at all. -/
theorem backslash_escape_verbatim :
    (∀ (c : Char) (cs cur : List Char) (q : Bool) (vals : List String),
      parseRobotValuesAux ('\\' :: c :: cs) cur q false vals =
        parseRobotValuesAux cs (cur ++ [c]) q false vals) ∧
    parseRobotValues "\\n" = ["n"] ∧
    (∀ (s f : String), noDoubleBackslash s.data = true →
      f ∈ parseRobotValues s → '\\' ∉ f.data) := by
  refine ⟨fun c cs cur q vals => rfl, by decide, fun s f h1 h2 => ?_⟩
  exact parseRobotValuesAux_no_backslash s.data [] false false [] h1
    (fun h => absurd h (by simp)) (by simp) (by simp) f h2

/-- Witness for C5 at the concrete payload `a\nb`, whose only field is
`anb`. -/
theorem backslash_escape_verbatim_witness :
    '\\' ∉ String.data "anb" :=
  backslash_escape_verbatim.2.2 "a\\nb" "anb" (by decide) (by decide)

theorem mapGet_set {α β : Type} [DecidableEq α] (m : List (α × β)) (k k' : α) (v : β) :
    mapGet (mapSet m k v) k' = if k = k' then some v else mapGet m k' := by
  induction m with
  | nil => simp [mapSet, mapGet]
  | cons p m ih =>
    obtain ⟨k0, v0⟩ := p
    by_cases h : k0 = k
    · subst h
      by_cases h' : k0 = k'
      · subst h'
        simp [mapSet, mapGet]
      · simp [mapSet, mapGet, h']
    · by_cases h' : k0 = k'
      · subst h'
        have hks : ¬(k = k0) := fun hh => h hh.symm
        simp [mapSet, mapGet, h, hks]
      · simp [mapSet, mapGet, h, h', ih]

theorem mapHas_iff_mem_keys {α β : Type} [DecidableEq α] (m : List (α × β)) (k : α) :
    mapHas m k = true ↔ k ∈ m.map Prod.fst := by
  induction m with
  | nil => simp [mapHas, mapGet]
  | cons p m ih =>
    obtain ⟨k0, v0⟩ := p
    by_cases h : k0 = k
    · subst h
      simp [mapHas, mapGet]
    · have hks : ¬(k = k0) := fun hh => h hh.symm
      simp [mapHas, mapGet, h, hks] at ih ⊢
      exact ih

theorem mapSet_keys_of_has {α β : Type} [DecidableEq α] (m : List (α × β)) (k : α) (v : β)
    (h : mapHas m k = true) : (mapSet m k v).map Prod.fst = m.map Prod.fst := by
  induction m with
  | nil => simp [mapHas, mapGet] at h
  | cons p m ih =>
    obtain ⟨k0, v0⟩ := p
    by_cases hk : k0 = k
    · subst hk
      simp [mapSet]
    · have hh : mapHas m k = true := by
        simpa [mapHas, mapGet, hk] using h
      simp [mapSet, hk, ih hh]

theorem mapSet_keys_of_not_has {α β : Type} [DecidableEq α] (m : List (α × β)) (k : α) (v : β)
    (h : mapHas m k = false) : (mapSet m k v).map Prod.fst = m.map Prod.fst ++ [k] := by
  induction m with
  | nil => simp [mapSet]
  | cons p m ih =>
    obtain ⟨k0, v0⟩ := p
    by_cases hk : k0 = k
    · subst hk
      simp [mapHas, mapGet] at h
    · have hh : mapHas m k = false := by
        simpa [mapHas, mapGet, hk] using h
      simp [mapSet, hk, ih hh]

theorem mem_of_mapGet_eq_some {α β : Type} [DecidableEq α] (m : List (α × β)) (k : α) (v : β)
    (h : mapGet m k = some v) : (k, v) ∈ m := by
  induction m with
  | nil => simp [mapGet] at h
  | cons p m ih =>
    obtain ⟨k0, v0⟩ := p
    by_cases hk : k0 = k
    · subst hk
      simp [mapGet] at h
      simp [h]
    · have hh := by simpa [mapGet, hk] using h
      simp [ih hh]

theorem mapGet_eq_some_of_mem_nodup {α β : Type} [DecidableEq α] (m : List (α × β))
    (hnd : (m.map Prod.fst).Nodup) (k : α) (v : β) (hm : (k, v) ∈ m) :
    mapGet m k = some v := by
  induction m with
  | nil => simp at hm
  | cons p m ih =>
    obtain ⟨k0, v0⟩ := p
    rw [List.map_cons, List.nodup_cons] at hnd
    rcases List.mem_cons.mp hm with h | h
    · injection h with hk hv
      subst hk
      subst hv
      simp [mapGet]
    · have hne : ¬(k0 = k) := by
        intro he
        subst he
        exact hnd.1 (List.mem_map.mpr ⟨(k0, v), h, rfl⟩)
      simp [mapGet, hne]
      exact ih hnd.2 h

theorem mem_mapSet_elim {α β : Type} [DecidableEq α] (m : List (α × β)) (k : α) (v : β)
    (p : α × β) (hp : p ∈ mapSet m k v) : p = (k, v) ∨ p ∈ m := by
  induction m with
  | nil => simpa [mapSet] using hp
  | cons q m ih =>
    obtain ⟨k0, v0⟩ := q
    by_cases hk : k0 = k
    · subst hk
      rcases List.mem_cons.mp (by simpa [mapSet] using hp) with h | h
      · exact Or.inl h
      · exact Or.inr (List.mem_cons.mpr (Or.inr h))
    · rcases List.mem_cons.mp (by simpa [mapSet, hk] using hp) with h | h
      · exact Or.inr (List.mem_cons.mpr (Or.inl h))
      · rcases ih h with h' | h'
        · exact Or.inl h'
        · exact Or.inr (List.mem_cons.mpr (Or.inr h'))

theorem tinfo_tm_get (st2 : List (Int × TitleInfo)) (id : Int) :
    mapGet (if mapHas st2 id then st2 else mapSet st2 id (⟨id, [], []⟩ : TitleInfo)) id =
      some ((mapGet st2 id).getD (⟨id, [], []⟩ : TitleInfo)) := by
  by_cases h : mapHas st2 id = true
  · rw [if_pos h]
    obtain ⟨t, ht⟩ := Option.isSome_iff_exists.mp (by simpa [mapHas] using h)
    simp [ht]
  · have hnone : mapGet st2 id = none := by
      rcases hg : mapGet st2 id with _ | t
      · rfl
      · exact absurd (by simp [mapHas, hg]) h
    rw [if_neg h, mapGet_set]
    simp [hnone]

/-- The `TINFO` case of the aggregation step, with the lazily created (or
found) title made explicit. -/
theorem discStep_tinfo (st : List (Int × String) × List (Int × TitleInfo))
    (id code : Int) (v : String) :
    parseDiscInfoStep st (.TINFO id code v) =
      (st.1,
        mapSet (if mapHas st.2 id then st.2 else mapSet st.2 id (⟨id, [], []⟩ : TitleInfo)) id
          (⟨((mapGet st.2 id).getD (⟨id, [], []⟩ : TitleInfo)).id,
            mapSet ((mapGet st.2 id).getD (⟨id, [], []⟩ : TitleInfo)).attributes code v,
            ((mapGet st.2 id).getD (⟨id, [], []⟩ : TitleInfo)).streams⟩ : TitleInfo)) := by
  simp only [parseDiscInfoStep]
  rw [tinfo_tm_get]

theorem discStep_tinfo_titleAttr (st : List (Int × String) × List (Int × TitleInfo))
    (id code : Int) (v : String) (n c : Int) :
    titleAttrAt (parseDiscInfoStep st (.TINFO id code v)).2 n c =
      if id = n ∧ code = c then some v else titleAttrAt st.2 n c := by
  rw [discStep_tinfo]
  by_cases hn : id = n
  · subst hn
    by_cases hc : code = c
    · subst hc
      simp [titleAttrAt, mapGet_set]
    · simp only [titleAttrAt, mapGet_set, if_pos rfl]
      show mapGet (mapSet ((mapGet st.2 id).getD (⟨id, [], []⟩ : TitleInfo)).attributes code v) c = _
      rw [mapGet_set, if_neg hc, if_neg (fun hh => hc hh.2)]
      rcases hg : mapGet st.2 id with _ | t
      · simp [hg, mapGet]
      · simp [hg]
  · have htm : mapGet (if mapHas st.2 id then st.2
        else mapSet st.2 id (⟨id, [], []⟩ : TitleInfo)) n = mapGet st.2 n := by
      by_cases hh : mapHas st.2 id = true
      · rw [if_pos hh]
      · rw [if_neg hh, mapGet_set, if_neg hn]
    simp only [titleAttrAt, mapGet_set, if_neg hn, htm,
      if_neg (fun hh : id = n ∧ code = c => hn hh.1)]

theorem discStep_tinfo_keys (st : List (Int × String) × List (Int × TitleInfo))
    (id code : Int) (v : String) :
    (parseDiscInfoStep st (.TINFO id code v)).2.map Prod.fst =
      if id ∈ st.2.map Prod.fst then st.2.map Prod.fst
      else st.2.map Prod.fst ++ [id] := by
  rw [discStep_tinfo]
  by_cases hh : mapHas st.2 id = true
  · rw [if_pos ((mapHas_iff_mem_keys st.2 id).mp hh),
      show (if mapHas st.2 id then st.2 else mapSet st.2 id (⟨id, [], []⟩ : TitleInfo)) = st.2
        from if_pos hh]
    exact mapSet_keys_of_has st.2 id _ hh
  · have hb : mapHas st.2 id = false := by
      revert hh
      cases mapHas st.2 id <;> simp
    rw [if_neg (fun hm => hh ((mapHas_iff_mem_keys st.2 id).mpr hm)),
      show (if mapHas st.2 id then st.2 else mapSet st.2 id (⟨id, [], []⟩ : TitleInfo)) =
        mapSet st.2 id (⟨id, [], []⟩ : TitleInfo) from if_neg hh]
    have h1 : mapHas (mapSet st.2 id (⟨id, [], []⟩ : TitleInfo)) id = true := by
      simp [mapHas, mapGet_set]
    rw [mapSet_keys_of_has _ _ _ h1, mapSet_keys_of_not_has _ _ _ hb]

theorem discStep_entries (st : List (Int × String) × List (Int × TitleInfo))
    (r : RobotOutput) (hst : ∀ p ∈ st.2, (p : Int × TitleInfo).2.id = p.1) :
    ∀ p ∈ (parseDiscInfoStep st r).2, p.2.id = p.1 := by
  cases r
  case TINFO id code v =>
    intro p hp
    rw [discStep_tinfo] at hp
    rcases mem_mapSet_elim _ _ _ _ hp with h | h
    · have ht0 : ((mapGet st.2 id).getD (⟨id, [], []⟩ : TitleInfo)).id = id := by
        rcases hg : mapGet st.2 id with _ | t
        · rfl
        · simpa using hst (id, t) (mem_of_mapGet_eq_some _ _ _ hg)
      rw [h]
      exact ht0
    · by_cases hh : mapHas st.2 id = true
      · rw [if_pos hh] at h
        exact hst p h
      · rw [if_neg hh] at h
        rcases mem_mapSet_elim _ _ _ _ h with h' | h'
        · rw [h']
        · exact hst p h'
  all_goals (intro p hp; exact hst p hp)

theorem foldl_discStep_entries (rs : List RobotOutput) :
    ∀ st, (∀ p ∈ st.2, (p : Int × TitleInfo).2.id = p.1) →
      ∀ p ∈ (rs.foldl parseDiscInfoStep st).2, p.2.id = p.1 := by
  induction rs with
  | nil => intro st h; exact h
  | cons r rs ih =>
    intro st h
    rw [List.foldl_cons]
    exact ih _ (discStep_entries st r h)

theorem foldl_discStep_nodup (rs : List RobotOutput) :
    ∀ st, (st.2.map Prod.fst).Nodup →
      ((rs.foldl parseDiscInfoStep st).2.map Prod.fst).Nodup := by
  induction rs with
  | nil => intro st h; exact h
  | cons r rs ih =>
    intro st h
    rw [List.foldl_cons]
    apply ih
    cases r
    case TINFO id code v =>
      rw [discStep_tinfo_keys]
      by_cases hm : id ∈ st.2.map Prod.fst
      · rw [if_pos hm]
        exact h
      · rw [if_neg hm]
        refine List.Nodup.append h (List.nodup_singleton id) ?_
        intro x hx hx'
        rw [List.mem_singleton] at hx'
        subst hx'
        exact hm hx
    all_goals exact h

theorem tinfoFirstSeen_congr (rs : List RobotOutput) :
    ∀ s₁ s₂ : List Int, (∀ x, x ∈ s₁ ↔ x ∈ s₂) →
      tinfoFirstSeen s₁ rs = tinfoFirstSeen s₂ rs := by
  induction rs with
  | nil => intro s₁ s₂ _; rfl
  | cons r rs ih =>
    intro s₁ s₂ hs
    cases r
    case TINFO id code v =>
      simp only [tinfoFirstSeen]
      by_cases hm : id ∈ s₁
      · rw [if_pos hm, if_pos ((hs id).mp hm)]
        exact ih s₁ s₂ hs
      · rw [if_neg hm, if_neg (fun hh => hm ((hs id).mpr hh))]
        rw [ih (id :: s₁) (id :: s₂) (fun x => by simp [hs x])]
    all_goals (simp only [tinfoFirstSeen]; exact ih s₁ s₂ hs)

theorem foldl_discStep_keys (rs : List RobotOutput) :
    ∀ st, (rs.foldl parseDiscInfoStep st).2.map Prod.fst =
      st.2.map Prod.fst ++ tinfoFirstSeen (st.2.map Prod.fst) rs := by
  induction rs with
  | nil => intro st; simp [tinfoFirstSeen]
  | cons r rs ih =>
    intro st
    rw [List.foldl_cons, ih]
    cases r
    case TINFO id code v =>
      simp only [tinfoFirstSeen]
      rw [discStep_tinfo_keys]
      by_cases hm : id ∈ st.2.map Prod.fst
      · simp only [if_pos hm]
      · simp only [if_neg hm]
        rw [tinfoFirstSeen_congr rs (st.2.map Prod.fst ++ [id]) (id :: st.2.map Prod.fst)
          (fun x => by simp [or_comm])]
        simp
    all_goals (simp only [tinfoFirstSeen]; rfl)

theorem foldl_discStep_attr (rs : List RobotOutput) :
    ∀ (st : List (Int × String) × List (Int × TitleInfo)) (k : Int),
      mapGet (rs.foldl parseDiscInfoStep st).1 k =
        rs.foldl (fun acc r =>
          match r with
          | RobotOutput.CINFO id _ v => if id = k then some v else acc
          | _ => acc) (mapGet st.1 k) := by
  induction rs with
  | nil => intro st k; rfl
  | cons r rs ih =>
    intro st k
    rw [List.foldl_cons, List.foldl_cons, ih]
    suffices h : mapGet (parseDiscInfoStep st r).1 k =
        (fun acc r =>
          match r with
          | RobotOutput.CINFO id _ v => if id = k then some v else acc
          | _ => acc) (mapGet st.1 k) r by
      rw [h]
    cases r
    case CINFO id code v => exact mapGet_set st.1 id k v
    case TINFO id code v => rw [discStep_tinfo]
    all_goals rfl

theorem foldl_discStep_titleAttr (rs : List RobotOutput) :
    ∀ (st : List (Int × String) × List (Int × TitleInfo)) (n c : Int),
      titleAttrAt (rs.foldl parseDiscInfoStep st).2 n c =
        rs.foldl (fun acc r =>
          match r with
          | RobotOutput.TINFO id code v => if id = n ∧ code = c then some v else acc
          | _ => acc) (titleAttrAt st.2 n c) := by
  induction rs with
  | nil => intro st n c; rfl
  | cons r rs ih =>
    intro st n c
    rw [List.foldl_cons, List.foldl_cons, ih]
    suffices h : titleAttrAt (parseDiscInfoStep st r).2 n c =
        (fun acc r =>
          match r with
          | RobotOutput.TINFO id code v => if id = n ∧ code = c then some v else acc
          | _ => acc) (titleAttrAt st.2 n c) r by
      rw [h]
    cases r
    case TINFO id code v => exact discStep_tinfo_titleAttr st id code v n c
    all_goals rfl

/-- C1: extensional characterization of the aggregator.  For every record
sequence, (a) the disc attribute collection maps each key `k` to the value
of the last disc-scope Info record whose `id` is `k`; (b) the titles appear
in first-seen order of the title-scope records' `id` fields (lazily created
on first sight); (c) each title's attribute collection maps each key `c` to
the value of the last title-scope Info record carrying that title's id and
`code` `c`. -/
theorem parseDiscInfo_spec (rs : List RobotOutput) :
    (∀ k, mapGet (parseDiscInfo rs).attributes k = lastCInfoValue rs k) ∧
    (parseDiscInfo rs).titles.map TitleInfo.id = tinfoFirstSeen [] rs ∧
    (∀ t ∈ (parseDiscInfo rs).titles, ∀ c,
      mapGet t.attributes c = lastTInfoValue rs t.id c) := by
  refine ⟨fun k => ?_, ?_, fun t ht c => ?_⟩
  · exact foldl_discStep_attr rs ([], []) k
  · have hwf := foldl_discStep_entries rs ([], []) (by simp)
    have hkeys := foldl_discStep_keys rs ([], [])
    show ((rs.foldl parseDiscInfoStep ([], [])).2.map Prod.snd).map TitleInfo.id =
      tinfoFirstSeen [] rs
    rw [List.map_map]
    rw [show (rs.foldl parseDiscInfoStep ([], [])).2.map (TitleInfo.id ∘ Prod.snd) =
        (rs.foldl parseDiscInfoStep ([], [])).2.map Prod.fst from
      List.map_congr_left (fun p hp => hwf p hp)]
    rw [hkeys]
    rfl
  · show mapGet t.attributes c = lastTInfoValue rs t.id c
    obtain ⟨p, hpmem, hpt⟩ := List.mem_map.mp ht
    have hid : p.2.id = p.1 := foldl_discStep_entries rs ([], []) (by simp) p hpmem
    have hnd : ((rs.foldl parseDiscInfoStep ([], [])).2.map Prod.fst).Nodup :=
      foldl_discStep_nodup rs ([], []) (by simp)
    have hget : mapGet (rs.foldl parseDiscInfoStep ([], [])).2 p.1 = some p.2 :=
      mapGet_eq_some_of_mem_nodup _ hnd p.1 p.2 hpmem
    have hta := foldl_discStep_titleAttr rs ([], []) p.1 c
    rw [← hpt, hid]
    have hattr : titleAttrAt (rs.foldl parseDiscInfoStep ([], [])).2 p.1 c =
        mapGet p.2.attributes c := by
      simp only [titleAttrAt, hget]
    rw [← hattr, hta]
    rfl

/-- Witness for C1 at a concrete record sequence with one disc-scope and
one title-scope record. -/
theorem parseDiscInfo_spec_witness :
    mapGet (⟨7, [(2, "X")], []⟩ : TitleInfo).attributes 2 =
      lastTInfoValue [RobotOutput.CINFO 1 9 "DVD", RobotOutput.TINFO 7 2 "X"] 7 2 :=
  (parseDiscInfo_spec [RobotOutput.CINFO 1 9 "DVD", RobotOutput.TINFO 7 2 "X"]).2.2
    (⟨7, [(2, "X")], []⟩ : TitleInfo) (by decide) 2
